import Mathlib

/-!
Verification development for the Website-Downloader repository
(`src/downloader.py`, `src/app.py`).

The Python source is shallowly embedded: pure helpers become Lean
functions on `String` / `List Char`; the stateful downloader becomes
explicit state passing over a `DState` record; the network and the
fallback HTTP client become oracles stored in the state; machine
integers are `Nat` with explicit `% 2 ^ 32` where overflow matters.
Python standard-library functions used by the source
(`hashlib.md5`, `urllib.parse`, `os.path`, `mimetypes`) are embedded
following the CPython reference implementations.
-/

namespace WD

/-! ## Python-style string helpers (on `List Char`) -/

/-- Python `str.split(sep)` for a one-character separator:
`"".split(c) = ['']`, separators at the ends produce empty fields. -/
def lsplit (sep : Char) : List Char → List (List Char)
  | [] => [[]]
  | c :: cs =>
    if c = sep then [] :: lsplit sep cs
    else
      match lsplit sep cs with
      | [] => [[c]]
      | p :: ps => (c :: p) :: ps

/-- Python `sep.join(parts)` for a one-character separator. -/
def ljoin (sep : Char) : List (List Char) → List Char
  | [] => []
  | [p] => p
  | p :: ps => p ++ sep :: ljoin sep ps

/-- Index of the last occurrence of `c` (Python `str.rfind`, as `Option`). -/
def lastIdx (c : Char) : List Char → Option Nat
  | [] => none
  | x :: xs =>
    match lastIdx c xs with
    | some j => some (j + 1)
    | none => if x = c then some 0 else none

/-- Index of the first occurrence of `c` (Python `str.find`, as `Option`). -/
def firstIdx (c : Char) : List Char → Option Nat
  | [] => none
  | x :: xs => if x = c then some 0 else (firstIdx c xs).map (· + 1)

/-- ASCII lower-casing of one character (Python `str.lower` on ASCII). -/
def lowerChar (c : Char) : Char :=
  if 'A' ≤ c ∧ c ≤ 'Z' then Char.ofNat (c.toNat + 32) else c

def lowerL (l : List Char) : List Char := l.map lowerChar

/-- Python whitespace test for `str.strip()` (ASCII whitespace). -/
def isPyWs (c : Char) : Bool :=
  c = ' ' ∨ c = '\t' ∨ c = '\n' ∨ c = '\r' ∨ c = '\x0b' ∨ c = '\x0c'

def lstripWith (p : Char → Bool) (l : List Char) : List Char := l.dropWhile p

def rstripWith (p : Char → Bool) (l : List Char) : List Char :=
  (l.reverse.dropWhile p).reverse

def stripWith (p : Char → Bool) (l : List Char) : List Char :=
  rstripWith p (lstripWith p l)

/-- Python `str.strip()` (no argument: whitespace). -/
def stripWs (l : List Char) : List Char := stripWith isPyWs l

/-! ## MD5 (embedding of `hashlib.md5(url.encode()).hexdigest()`)

32-bit words are `Nat` values kept below `2 ^ 32` by explicit
reduction; the message is the UTF-8 encoding of the string. -/

def M32 : Nat := 4294967296

def add32 (a b : Nat) : Nat := (a + b) % M32

def not32 (a : Nat) : Nat := 4294967295 ^^^ a

def rotl32 (x s : Nat) : Nat := ((x <<< s) ||| (x >>> (32 - s))) % M32

/-- UTF-8 bytes of one character (Python `str.encode('utf-8')`). -/
def utf8Char (c : Char) : List Nat :=
  let n := c.toNat
  if n < 128 then [n]
  else if n < 2048 then [192 ||| (n >>> 6), 128 ||| (n &&& 63)]
  else if n < 65536 then
    [224 ||| (n >>> 12), 128 ||| ((n >>> 6) &&& 63), 128 ||| (n &&& 63)]
  else
    [240 ||| (n >>> 18), 128 ||| ((n >>> 12) &&& 63),
     128 ||| ((n >>> 6) &&& 63), 128 ||| (n &&& 63)]

def utf8Bytes (s : String) : List Nat := s.data.flatMap utf8Char

/-- MD5 per-round constants `K[i] = floor(abs(sin(i+1)) * 2^32)`. -/
def md5K : List Nat :=
  [0xd76aa478, 0xe8c7b756, 0x242070db, 0xc1bdceee,
   0xf57c0faf, 0x4787c62a, 0xa8304613, 0xfd469501,
   0x698098d8, 0x8b44f7af, 0xffff5bb1, 0x895cd7be,
   0x6b901122, 0xfd987193, 0xa679438e, 0x49b40821,
   0xf61e2562, 0xc040b340, 0x265e5a51, 0xe9b6c7aa,
   0xd62f105d, 0x02441453, 0xd8a1e681, 0xe7d3fbc8,
   0x21e1cde6, 0xc33707d6, 0xf4d50d87, 0x455a14ed,
   0xa9e3e905, 0xfcefa3f8, 0x676f02d9, 0x8d2a4c8a,
   0xfffa3942, 0x8771f681, 0x6d9d6122, 0xfde5380c,
   0xa4beea44, 0x4bdecfa9, 0xf6bb4b60, 0xbebfbc70,
   0x289b7ec6, 0xeaa127fa, 0xd4ef3085, 0x04881d05,
   0xd9d4d039, 0xe6db99e5, 0x1fa27cf8, 0xc4ac5665,
   0xf4292244, 0x432aff97, 0xab9423a7, 0xfc93a039,
   0x655b59c3, 0x8f0ccc92, 0xffeff47d, 0x85845dd1,
   0x6fa87e4f, 0xfe2ce6e0, 0xa3014314, 0x4e0811a1,
   0xf7537e82, 0xbd3af235, 0x2ad7d2bb, 0xeb86d391]

/-- MD5 per-round left-rotation amounts. -/
def md5S : List Nat :=
  [7, 12, 17, 22, 7, 12, 17, 22, 7, 12, 17, 22, 7, 12, 17, 22,
   5, 9, 14, 20, 5, 9, 14, 20, 5, 9, 14, 20, 5, 9, 14, 20,
   4, 11, 16, 23, 4, 11, 16, 23, 4, 11, 16, 23, 4, 11, 16, 23,
   6, 10, 15, 21, 6, 10, 15, 21, 6, 10, 15, 21, 6, 10, 15, 21]

/-- One MD5 round applied to the running state `(a, b, c, d)`. -/
def md5Round (m : Nat → Nat) (i : Nat) :
    Nat × Nat × Nat × Nat → Nat × Nat × Nat × Nat
  | (a, b, c, d) =>
    let f : Nat :=
      if i < 16 then (b &&& c) ||| (not32 b &&& d)
      else if i < 32 then (d &&& b) ||| (not32 d &&& c)
      else if i < 48 then b ^^^ c ^^^ d
      else c ^^^ (b ||| not32 d)
    let g : Nat :=
      if i < 16 then i
      else if i < 32 then (5 * i + 1) % 16
      else if i < 48 then (3 * i + 5) % 16
      else (7 * i) % 16
    let f' := (f + a + md5K.getD i 0 + m g) % M32
    (d, add32 b (rotl32 f' (md5S.getD i 0)), b, c)

/-- Process one 64-byte chunk. -/
def md5Chunk (chunk : List Nat) (st : Nat × Nat × Nat × Nat) :
    Nat × Nat × Nat × Nat :=
  let word (g : Nat) : Nat :=
    chunk.getD (4 * g) 0 + 256 * chunk.getD (4 * g + 1) 0 +
      65536 * chunk.getD (4 * g + 2) 0 + 16777216 * chunk.getD (4 * g + 3) 0
  let (a, b, c, d) := (List.range 64).foldl (fun s i => md5Round word i s) st
  match st with
  | (a0, b0, c0, d0) => (add32 a0 a, add32 b0 b, add32 c0 c, add32 d0 d)

/-- Split a byte list into 64-byte chunks (fuel-structured so that the
kernel can evaluate it; the fuel is the list length, an upper bound on
the number of chunks). -/
def chunks64Go : Nat → List Nat → List (List Nat)
  | _, [] => []
  | 0, _ => []
  | fuel + 1, c :: cs => (c :: cs).take 64 :: chunks64Go fuel ((c :: cs).drop 64)

def chunks64 (l : List Nat) : List (List Nat) := chunks64Go l.length l

/-- MD5 padding: `0x80`, zeros to 56 mod 64, 8-byte little-endian bit length. -/
def md5Pad (msg : List Nat) : List Nat :=
  let len := msg.length
  let zeros := (120 - (len + 1) % 64) % 64
  let bitLen := (8 * len) % (2 ^ 64)
  msg ++ 128 :: List.replicate zeros 0 ++
    (List.range 8).map (fun i => (bitLen >>> (8 * i)) % 256)

/-- Little-endian bytes of a 32-bit word. -/
def le4 (w : Nat) : List Nat :=
  [w % 256, (w >>> 8) % 256, (w >>> 16) % 256, (w >>> 24) % 256]

/-- The sixteen digest bytes of MD5 over a byte message. -/
def md5Digest (msg : List Nat) : List Nat :=
  let init : Nat × Nat × Nat × Nat :=
    (0x67452301, 0xefcdab89, 0x98badcfe, 0x10325476)
  match (chunks64 (md5Pad msg)).foldl (fun st ch => md5Chunk ch st) init with
  | (a, b, c, d) => le4 a ++ le4 b ++ le4 c ++ le4 d

/-- The lower-case hexadecimal digit for `n % 16` (code point 48 + d
for a decimal digit d, 87 + d for d in 10..15, i.e. `a`..`f`). -/
def hexDigit (n : Nat) : Char :=
  if n % 16 < 10 then Char.ofNat (48 + n % 16) else Char.ofNat (87 + n % 16)

/-- The sixteen hexadecimal digit characters. -/
def hexDigits : List Char := (List.range 16).map hexDigit

def byteHex (b : Nat) : List Char := [hexDigit (b / 16), hexDigit (b % 16)]

/-- `hashlib.md5(s.encode()).hexdigest()`. -/
def md5hex (s : String) : String :=
  String.mk ((md5Digest (utf8Bytes s)).flatMap byteHex)

/-! ## `urllib.parse` (embedding of the CPython 3.11 implementation)

`urlsplit`, `urlparse`, `urlunparse` and `urljoin` are translated from
`Lib/urllib/parse.py`; strings are handled as `List Char`.  The IPv6
bracket validation (which only raises `ValueError` on URLs the source
never produces) is not modelled. -/

def usesRelative : List String :=
  ["", "ftp", "http", "gopher", "nntp", "imap", "wais", "file", "https",
   "shttp", "mms", "prospero", "rtsp", "rtsps", "rtspu", "sftp", "svn",
   "svn+ssh", "ws", "wss"]

def usesNetloc : List String :=
  ["", "ftp", "http", "gopher", "nntp", "telnet", "imap", "wais", "file",
   "mms", "https", "shttp", "snews", "prospero", "rtsp", "rtsps", "rtspu",
   "rsync", "svn", "svn+ssh", "sftp", "nfs", "git", "git+ssh", "ws", "wss"]

def usesParams : List String :=
  ["", "ftp", "hdl", "prospero", "http", "imap", "https", "shttp", "rtsp",
   "rtsps", "rtspu", "sip", "sips", "mms", "sftp", "tel"]

/-- Membership in `scheme_chars` (ASCII letters, digits, `+`, `-`, `.`). -/
def isSchemeChar (c : Char) : Bool :=
  c.isAlpha ∨ c.isDigit ∨ c = '+' ∨ c = '-' ∨ c = '.'

/-- WHATWG C0-control-or-space characters (code points 0–32). -/
def isC0OrSpace (c : Char) : Bool := c.toNat ≤ 32

/-- `_UNSAFE_URL_BYTES_TO_REMOVE`: tab, carriage return, newline. -/
def isUnsafeUrlByte (c : Char) : Bool := c = '\t' ∨ c = '\r' ∨ c = '\n'

/-- Python `str.split(sep, 1)`: split at the first occurrence of `sep`. -/
def splitFirst (sep : Char) (l : List Char) : List Char × List Char :=
  match firstIdx sep l with
  | none => (l, [])
  | some i => (l.take i, l.drop (i + 1))

/-- `_splitnetloc(url, 2)`, already applied to the part after `//`:
the netloc runs until the first `/`, `?` or `#`. -/
def splitNetloc (l : List Char) : List Char × List Char :=
  (l.takeWhile (fun c => ¬(c = '/' ∨ c = '?' ∨ c = '#')),
   l.dropWhile (fun c => ¬(c = '/' ∨ c = '?' ∨ c = '#')))

/-- The five components produced by `urlsplit` plus `params`
(for `urlparse`), as `List Char`. -/
structure ParseResultL where
  scheme : List Char
  netloc : List Char
  path : List Char
  params : List Char
  query : List Char
  fragment : List Char
deriving Repr, DecidableEq

/-- `urlsplit(url, scheme)` with `allow_fragments=True` (the only form
the source uses); result has empty `params`. -/
def urlsplitL (url0 defScheme0 : List Char) : ParseResultL :=
  let url1 := (lstripWith isC0OrSpace url0).filter (fun c => ¬ isUnsafeUrlByte c)
  let defScheme := (stripWith isC0OrSpace defScheme0).filter
    (fun c => ¬ isUnsafeUrlByte c)
  let (scheme, url2) :=
    match firstIdx ':' url1 with
    | some i =>
      if 0 < i ∧ (url1.headD ' ').toNat ≤ 127 ∧ (url1.headD ' ').isAlpha ∧
          (url1.take i).all isSchemeChar then
        (lowerL (url1.take i), url1.drop (i + 1))
      else (defScheme, url1)
    | none => (defScheme, url1)
  let (netloc, url3) :=
    if url2.take 2 = ['/', '/'] then
      let (n, r) := splitNetloc (url2.drop 2)
      (n, r)
    else ([], url2)
  let (url4, fragment) :=
    if url3.contains '#' then splitFirst '#' url3 else (url3, [])
  let (url5, query) :=
    if url4.contains '?' then splitFirst '?' url4 else (url4, [])
  ⟨scheme, netloc, url5, [], query, fragment⟩

/-- `_splitparams(url)`. -/
def splitParams (url : List Char) : List Char × List Char :=
  if url.contains '/' then
    let start := (lastIdx '/' url).getD 0
    match firstIdx ';' (url.drop start) with
    | none => (url, [])
    | some j => (url.take (start + j), url.drop (start + j + 1))
  else splitFirst ';' url

/-- `urlparse(url, scheme)` with `allow_fragments=True`. -/
def urlparseL (url defScheme : List Char) : ParseResultL :=
  let sr := urlsplitL url defScheme
  if usesParams.contains (String.mk sr.scheme) ∧ sr.path.contains ';' then
    let (p, ps) := splitParams sr.path
    { sr with path := p, params := ps }
  else sr

/-- `urlunsplit` on `(scheme, netloc, path, query, fragment)`. -/
def urlunsplitL (scheme netloc path query fragment : List Char) : List Char :=
  let u1 :=
    if netloc ≠ [] ∨
        (scheme ≠ [] ∧ usesNetloc.contains (String.mk scheme) ∧
          path.take 2 ≠ ['/', '/']) then
      let p := if path ≠ [] ∧ path.take 1 ≠ ['/'] then '/' :: path else path
      '/' :: '/' :: (netloc ++ p)
    else path
  let u2 := if scheme ≠ [] then scheme ++ ':' :: u1 else u1
  let u3 := if query ≠ [] then u2 ++ '?' :: query else u2
  if fragment ≠ [] then u3 ++ '#' :: fragment else u3

/-- `urlunparse` on a six-component result. -/
def urlunparseL (r : ParseResultL) : List Char :=
  let p := if r.params ≠ [] then r.path ++ ';' :: r.params else r.path
  urlunsplitL r.scheme r.netloc p r.query r.fragment

/-- Python `filter(None, ·)` applied to `segments[1:-1]`:
keep the first and last segments, drop empty middle segments. -/
def filterMiddle (segs : List (List Char)) : List (List Char) :=
  match segs with
  | [] => []
  | [x] => [x]
  | x :: rest => x :: (rest.dropLast.filter (fun s => s ≠ []) ++ [rest.getLastD []])

/-- The `..`/`.` resolution loop of `urljoin`. -/
def resolveSegs (acc : List (List Char)) : List (List Char) → List (List Char)
  | [] => acc
  | s :: ss =>
    if s = ['.', '.'] then resolveSegs acc.dropLast ss
    else if s = ['.'] then resolveSegs acc ss
    else resolveSegs (acc ++ [s]) ss

/-- `urljoin(base, url)` (CPython 3.11). -/
def urljoinL (base url : List Char) : List Char :=
  if base = [] then url
  else if url = [] then base
  else
    let b := urlparseL base []
    let r := urlparseL url b.scheme
    if r.scheme ≠ b.scheme ∨ ¬ usesRelative.contains (String.mk r.scheme) then
      url
    else if usesNetloc.contains (String.mk r.scheme) ∧ r.netloc ≠ [] then
      urlunparseL r
    else
      let netloc :=
        if usesNetloc.contains (String.mk r.scheme) then b.netloc else r.netloc
      if r.path = [] ∧ r.params = [] then
        let query := if r.query = [] then b.query else r.query
        urlunparseL ⟨r.scheme, netloc, b.path, b.params, query, r.fragment⟩
      else
        let baseParts0 := lsplit '/' b.path
        let baseParts :=
          if baseParts0.getLastD [] ≠ [] then baseParts0.dropLast else baseParts0
        let segments :=
          if r.path.take 1 = ['/'] then lsplit '/' r.path
          else filterMiddle (baseParts ++ lsplit '/' r.path)
        let resolved := resolveSegs [] segments
        let resolved' :=
          if segments.getLastD [] = ['.'] ∨ segments.getLastD [] = ['.', '.'] then
            resolved ++ [[]]
          else resolved
        let path' := ljoin '/' resolved'
        let path'' := if path' = [] then ['/'] else path'
        urlunparseL ⟨r.scheme, netloc, path'', r.params, r.query, r.fragment⟩

/-- `urljoin` on `String`. -/
def urljoin (base url : String) : String :=
  String.mk (urljoinL base.data url.data)

/-- `urlparse(url)` on `String` (default scheme `''`). -/
def urlparse (url : String) : ParseResultL := urlparseL url.data []

/-! ## `os.path` helpers (posixpath) -/

/-- `os.path.basename(p)`: everything after the last `/`. -/
def basenameL (p : List Char) : List Char :=
  (p.reverse.takeWhile (fun c => c ≠ '/')).reverse

/-- `os.path.splitext(p)` (posixpath): split at the last dot, provided it
lies after the last `/` and the base name has a non-dot character before
it (leading dots do not start an extension). -/
def splitextL (p : List Char) : List Char × List Char :=
  match lastIdx '.' p with
  | none => (p, [])
  | some d =>
    match lastIdx '/' p with
    | none =>
      if (p.take d).any (fun c => c ≠ '.') then (p.take d, p.drop d)
      else (p, [])
    | some s =>
      if s < d ∧ ((p.drop (s + 1)).take (d - (s + 1))).any (fun c => c ≠ '.') then
        (p.take d, p.drop d)
      else (p, [])

/-! ## `mimetypes.guess_extension` (model of the stdlib table)

A finite association table with the content types relevant to web
resources; `guess_extension` lower-cases its argument and looks the
type up. -/

def mimeTable : List (String × String) :=
  [("text/css", ".css"), ("text/html", ".html"), ("text/plain", ".txt"),
   ("text/javascript", ".js"), ("application/javascript", ".js"),
   ("application/json", ".json"), ("application/xml", ".xml"),
   ("image/png", ".png"), ("image/jpeg", ".jpg"), ("image/gif", ".gif"),
   ("image/svg+xml", ".svg"), ("image/webp", ".webp"),
   ("image/x-icon", ".ico"), ("font/woff", ".woff"), ("font/woff2", ".woff2"),
   ("font/ttf", ".ttf"), ("application/pdf", ".pdf"),
   ("video/mp4", ".mp4"), ("audio/mpeg", ".mp3")]

def lookupTable : List (String × String) → String → Option String
  | [], _ => none
  | (k, v) :: t, m => if k = m then some v else lookupTable t m

/-- `mimetypes.guess_extension(mime)`. -/
def guessExtension (mime : String) : Option String :=
  lookupTable mimeTable (String.mk (lowerL mime.data))

/-! ## The downloader's filename policy
(`WebsiteDownloader._get_extension`, `_generate_filename`) -/

/-- `_get_extension(url, content_type)`: the URL's own suffix when it is
non-empty and at most 6 characters, else a `mimetypes` lookup of the
declared content type (first `;`-field, stripped, lower-cased),
else `''`. -/
def getExtension (url contentType : String) : String :=
  if (splitextL (urlparse url).path).2 ≠ [] ∧
      (splitextL (urlparse url).path).2.length ≤ 6 then
    String.mk (splitextL (urlparse url).path).2
  else if contentType ≠ "" then
    match guessExtension
        (String.mk (stripWs ((lsplit ';' contentType.data).headD []))) with
    | some g => g
    | none => ""
  else ""

/-- The characters the source's `re.sub(r'[^a-zA-Z0-9_-]', '_', ·)` keeps. -/
def allowedChar (c : Char) : Bool :=
  c.isAlpha ∨ c.isDigit ∨ c = '_' ∨ c = '-'

/-- `re.sub(r'[^a-zA-Z0-9_-]', '_', s)`. -/
def sanitize (l : List Char) : List Char :=
  l.map (fun c => if allowedChar c then c else '_')

/-- The name part of `_generate_filename`: the basename of the parsed
path; if non-empty, its first dot-segment sanitized and truncated to 30
characters, else `resource`. -/
def nameOf (url : String) : List Char :=
  if basenameL (urlparse url).path ≠ [] then
    (sanitize ((basenameL (urlparse url).path).takeWhile (fun c => c ≠ '.'))).take 30
  else "resource".data

/-- `hashlib.md5(url.encode()).hexdigest()[:12]`. -/
def hash12 (url : String) : List Char := (md5hex url).data.take 12

/-- `_generate_filename(url, content_type)`:
`f"{name}_{url_hash}{ext}"`. -/
def generateFilename (url contentType : String) : String :=
  String.mk (nameOf url ++ '_' :: (hash12 url ++ (getExtension url contentType).data))

/-! ## The downloader state machine

`WebsiteDownloader`'s mutable state during document processing:
`base_url`, `resource_cache` (url → local path) and
`network_resources` (url → captured body and content type), plus the
fallback HTTP client (`self.session.get`) as an oracle: `none` models a
raised exception (timeout, transport error), `some r` a response.
Results carry the number of fallback fetches performed and of files
written so that at-most-one-fetch properties are statable. -/

def pyStartsWith (s p : String) : Bool := p.data.isPrefixOf s.data

structure NetRes where
  body : List Nat
  contentType : String
deriving Repr, DecidableEq

structure HttpResp where
  status : Nat
  body : List Nat
  contentType : String
deriving Repr, DecidableEq

def assocLookup {α : Type} : List (String × α) → String → Option α
  | [], _ => none
  | (k, v) :: t, key => if k = key then some v else assocLookup t key

structure DState where
  baseUrl : String
  cache : List (String × String)
  network : List (String × NetRes)
  fetch : String → Option HttpResp

/-- `not url or url.startswith('data:') or url.startswith('blob:') or
url.startswith('#')`. -/
def isTrivialRef (url : String) : Bool :=
  url = "" ∨ pyStartsWith url "data:" ∨ pyStartsWith url "blob:" ∨
    pyStartsWith url "#"

/-- `urljoin(base or self.base_url, url)`: Python's `or` takes
`self.base_url` both when `base` is `None` and when it is empty. -/
def absUrlOf (st : DState) (url : String) (base : Option String) : String :=
  urljoin (match base with
           | some b => if b = "" then st.baseUrl else b
           | none => st.baseUrl) url

/-- `_save_resource(url, content, content_type)`:
`(returned path, new state, files written)`. -/
def saveResource (st : DState) (url : String) (content : List Nat)
    (contentType : String) : Option String × DState × Nat :=
  match assocLookup st.cache url with
  | some p => (some p, st, 0)
  | none =>
    if content = [] then (none, st, 0)
    else
      let rel := "assets/" ++ generateFilename url contentType
      (some rel, { st with cache := (url, rel) :: st.cache }, 1)

/-- The result of `_get_resource` / `_download_fallback`: the returned
value (`none` models Python `None`), the state, the number of fallback
HTTP fetches attempted and the number of files saved. -/
structure RcResult where
  result : Option String
  st : DState
  fetches : Nat
  saves : Nat

/-- `_download_fallback(url)`: a `session.get` with a 15-second timeout;
a non-200 status or any exception degrades to `None` silently. -/
def downloadFallback (st : DState) (url : String) : RcResult :=
  match assocLookup st.cache url with
  | some p => ⟨some p, st, 0, 0⟩
  | none =>
    if isTrivialRef url then ⟨some url, st, 0, 0⟩
    else
      match st.fetch url with
      | none => ⟨none, st, 1, 0⟩
      | some resp =>
        if resp.status = 200 then
          let (r, st', sv) := saveResource st url resp.body resp.contentType
          ⟨r, st', 1, sv⟩
        else ⟨none, st, 1, 0⟩

/-- `_get_resource(url, base=None)`: cache, then captured network
responses, then the fallback download, else the original reference. -/
def getResource (st : DState) (url : String) (base : Option String) : RcResult :=
  if isTrivialRef url then ⟨some url, st, 0, 0⟩
  else
    let absUrl := absUrlOf st url base
    match assocLookup st.cache absUrl with
    | some p => ⟨some p, st, 0, 0⟩
    | none =>
      match assocLookup st.network absUrl with
      | some nr =>
        let (r, st', sv) := saveResource st absUrl nr.body nr.contentType
        ⟨r, st', 0, sv⟩
      | none =>
        let rr := downloadFallback st absUrl
        match rr.result with
        | some p =>
          if p ≠ "" then ⟨some p, rr.st, rr.fetches, rr.saves⟩
          else ⟨some url, rr.st, rr.fetches, rr.saves⟩
        | none => ⟨some url, rr.st, rr.fetches, rr.saves⟩

/-- A sequence of further `_get_resource` calls (url, base). -/
def execCalls (st : DState) (calls : List (String × Option String)) : DState :=
  calls.foldl (fun s c => (getResource s c.1 c.2).st) st

/-! ## `_rewrite_css_urls` (the `url\(\s*([^)]+)\s*\)` substitution) -/

/-- The replacer applied to one matched token (the regex group,
including any surrounding whitespace); returns the replacement text and
the updated state. -/
def cssReplacer (st : DState) (cssUrl : String) (content : List Char) :
    List Char × DState :=
  let full := "url(".data ++ content ++ [')']
  let t1 := stripWs content
  let t2 :=
    if (t1.headD ' ' = '\'' ∨ t1.headD ' ' = '"') ∧
        (t1.getLastD ' ' = '\'' ∨ t1.getLastD ' ' = '"') then
      (t1.drop 1).dropLast
    else t1
  if t2 = [] ∨ "data:".data.isPrefixOf t2 then (full, st)
  else
    let absU := urljoin cssUrl (String.mk t2)
    let rr := getResource st absU none
    match rr.result with
    | some p =>
      if p ≠ "" ∧ pyStartsWith p "assets/" then
        ("url(\"".data ++ basenameL p.data ++ "\")".data, rr.st)
      else (full, rr.st)
    | none => (full, rr.st)

/-- Left-to-right scan for non-overlapping `url\(\s*([^)]+)\s*\)`
matches, as `re.sub` performs it (fuel-structured on the text length). -/
def rewriteCssGo (cssUrl : String) : Nat → DState → List Char →
    List Char × DState
  | 0, st, l => (l, st)
  | _ + 1, st, [] => ([], st)
  | fuel + 1, st, c :: cs =>
    if c = 'u' ∧ "rl(".data.isPrefixOf cs then
      let rest := cs.drop 3
      let content := rest.takeWhile (fun x => x ≠ ')')
      match rest.dropWhile (fun x => x ≠ ')') with
      | ')' :: tail =>
        if content ≠ [] then
          let (rep, st') := cssReplacer st cssUrl content
          let (out, st'') := rewriteCssGo cssUrl fuel st' tail
          (rep ++ out, st'')
        else
          let (out, st') := rewriteCssGo cssUrl fuel st cs
          (c :: out, st')
      | _ =>
        let (out, st') := rewriteCssGo cssUrl fuel st cs
        (c :: out, st')
    else
      let (out, st') := rewriteCssGo cssUrl fuel st cs
      (c :: out, st')

/-- `_rewrite_css_urls(css_content, css_url)`. -/
def rewriteCssUrls (st : DState) (css cssUrl : String) : String × DState :=
  let (l, st') := rewriteCssGo cssUrl css.data.length st css.data
  (String.mk l, st')

/-! ## `_process_srcset` and the media-element pass -/

/-- Python `str.split()`: whitespace-separated words. -/
def wordsAux : List Char → List Char → List (List Char)
  | [], acc => if acc = [] then [] else [acc.reverse]
  | c :: cs, acc =>
    if isPyWs c then
      if acc = [] then wordsAux cs [] else acc.reverse :: wordsAux cs []
    else wordsAux cs (c :: acc)

def splitWsL (l : List Char) : List (List Char) := wordsAux l []

/-- `', '.join(parts)`. -/
def joinCommaSpace : List (List Char) → List Char
  | [] => []
  | [p] => p
  | p :: ps => p ++ ',' :: ' ' :: joinCommaSpace ps

/-- One candidate of a `srcset` list (the loop body of
`_process_srcset`): returns the part to append (if any) and the state. -/
def srcsetPart (st : DState) (base : Option String) (part0 : List Char) :
    Option (List Char) × DState :=
  let part := stripWs part0
  if part = [] then (none, st)
  else
    match splitWsL part with
    | [] => (none, st)
    | url :: rest =>
      let descriptor := ljoin ' ' rest
      if "data:".data.isPrefixOf url then (some part, st)
      else
        let rr := getResource st (String.mk url) base
        match rr.result with
        | some p =>
          if p ≠ "" ∧ p.data ≠ url then
            (some (stripWs (p.data ++ ' ' :: descriptor)), rr.st)
          else (some part, rr.st)
        | none => (some part, rr.st)

def srcsetGo (base : Option String) : DState → List (List Char) →
    List (List Char) × DState
  | st, [] => ([], st)
  | st, part :: ps =>
    match srcsetPart st base part with
    | (none, st') =>
      let (out, st'') := srcsetGo base st' ps
      (out, st'')
    | (some np, st') =>
      let (out, st'') := srcsetGo base st' ps
      (np :: out, st'')

/-- `_process_srcset(srcset, base=None)`. -/
def processSrcset (st : DState) (srcset : String) (base : Option String) :
    String × DState :=
  if srcset = "" then (srcset, st)
  else
    let (newParts, st') := srcsetGo base st (lsplit ',' srcset.data)
    if newParts = [] then (srcset, st')
    else (String.mk (joinCommaSpace newParts), st')

/-! ## Document elements (BeautifulSoup tags as attribute lists) -/

structure Elem where
  tag : String
  attrs : List (String × String)
deriving Repr, DecidableEq

def Elem.get (e : Elem) (a : String) : Option String := assocLookup e.attrs a

/-- Truthy attribute access: present and non-empty. -/
def Elem.getTruthy (e : Elem) (a : String) : Option String :=
  match e.get a with
  | some v => if v = "" then none else some v
  | none => none

def setAssoc : List (String × String) → String → String →
    List (String × String)
  | [], k, v => [(k, v)]
  | (k', v') :: t, k, v =>
    if k' = k then (k, v) :: t else (k', v') :: setAssoc t k v

def Elem.set (e : Elem) (k v : String) : Elem :=
  { e with attrs := setAssoc e.attrs k v }

def Elem.del (e : Elem) (k : String) : Elem :=
  { e with attrs := e.attrs.filter (fun kv => kv.1 ≠ k) }

/-- The fixed ordered list of lazy-loading attribute names
(`process`, step 4). -/
def lazyAttrs : List String :=
  ["data-src", "data-original", "data-lazy-src", "data-url", "data-image",
   "data-bg"]

/-- The `for attr in [...]` loop of the media pass.  The `break` in the
source sits at the end of the `if elem.get(attr):` body, so attribute
names that are absent (or whose value is empty, i.e. falsy) are
skipped, and the loop stops after the first present one — the names
after it are never consulted. -/
def lazyLoop (st : DState) (e : Elem) (src : Option String) :
    List String → DState × Elem × Option String
  | [] => (st, e, src)
  | attr :: rest =>
    match e.getTruthy attr with
    | some lazySrc =>
      -- the `if elem.get(attr):` body runs, then `break`
      let rr := getResource st lazySrc none
      match rr.result with
      | some p =>
        if p ≠ "" ∧ p ≠ lazySrc then
          (rr.st, (e.set "src" p).del attr, none)
        else (rr.st, e, src)
      | none => (rr.st, e, src)
    | none => lazyLoop st e src rest

/-- `if src and not src.startswith('data:') : ...` -/
def srcStep (st : DState) (e : Elem) (src : Option String) : DState × Elem :=
  match src with
  | some s =>
    if s ≠ "" ∧ ¬ pyStartsWith s "data:" then
      let rr := getResource st s none
      match rr.result with
      | some p => if p ≠ "" ∧ p ≠ s then (rr.st, e.set "src" p) else (rr.st, e)
      | none => (rr.st, e)
    else (st, e)
  | none => (st, e)

/-- The whole per-element body of the media pass (`process`, step 4):
lazy attributes, `src`, `srcset`, `data-srcset`, video `poster`. -/
def processMediaElem (st : DState) (e : Elem) : DState × Elem :=
  let src0 := e.get "src"
  let (st1, e1, src1) := lazyLoop st e src0 lazyAttrs
  let (st2, e2) := srcStep st1 e1 src1
  let (st3, e3) :=
    match e2.getTruthy "srcset" with
    | some ss =>
      let (ns, st') := processSrcset st2 ss none
      (st', e2.set "srcset" ns)
    | none => (st2, e2)
  let (st4, e4) :=
    match e3.getTruthy "data-srcset" with
    | some ss =>
      let (ns, st') := processSrcset st3 ss none
      (st', e3.set "data-srcset" ns)
    | none => (st3, e3)
  if e4.tag = "video" then
    match e4.getTruthy "poster" with
    | some poster =>
      let rr := getResource st4 poster none
      match rr.result with
      | some p =>
        if p ≠ "" ∧ p ≠ poster then (rr.st, e4.set "poster" p)
        else (rr.st, e4)
      | none => (rr.st, e4)
    | none => (st4, e4)
  else (st4, e4)

/-! ## Navigation-anchor rewriting (`process`, step 9) -/

/-- The per-anchor `href` rewriting: `/` and every other root-relative
path become `#`; everything else is left alone. -/
def rewriteAnchorHref (href : String) : String :=
  if href = "/" then "#"
  else if pyStartsWith href "/" ∧ ¬ pyStartsWith href "//" then "#"
  else href

/-! ## `_scroll_page`: the bounded scroll loop -/

def maxScrollIterations : Nat := 20

/-- The `while current < total_height and iteration < max_iterations`
loop.  `newHeight i` is the height the page reports at the `i`-th
re-measurement; the result is the final iteration count.  The fuel is
structural so the function evaluates in the kernel; the entry point
supplies fuel `maxScrollIterations`, which the invariant
`iter + fuel ≥ maxScrollIterations` keeps sufficient. -/
def scrollGo (newHeight : Nat → Nat) (viewport : Nat) :
    Nat → Nat → Nat → Nat → Nat
  | 0, _, _, iter => iter
  | fuel + 1, current, total, iter =>
    if current < total ∧ iter < maxScrollIterations then
      let current' := current + viewport
      let iter' := iter + 1
      let nh := newHeight iter'
      let total' := if total < nh then nh else total
      scrollGo newHeight viewport fuel current' total' iter'
    else iter

/-- Number of iterations the scroll loop of `_scroll_page` executes,
starting from `current = 0`, `iteration = 0` and the initially measured
`total_height`. -/
def scrollIterations (newHeight : Nat → Nat) (viewport total0 : Nat) : Nat :=
  scrollGo newHeight viewport maxScrollIterations 0 total0 0

/-! ## The control-flow skeleton of `process` and `process_download`

`process` drives external collaborators (Playwright, the filesystem);
what the error-propagation claims need is which failures are absorbed
and which propagate.  Each collaborator outcome is an oracle value;
`Except.error` models a raised exception. -/

structure RenderOracle where
  /-- Browser/context/page startup (`p.chromium.launch`, …): not inside
  any `try`, so a failure propagates. -/
  launch : Except String Unit
  /-- `page.goto(...)`: wrapped in `try/except`, failure only logged. -/
  gotoResult : Except String Unit
  /-- `page.url` after navigation. -/
  finalUrl : String
  /-- Responses captured by the `page.on("response")` callback. -/
  captured : List (String × NetRes)
  /-- The script evaluations of `_scroll_page`: its whole body is inside
  `try/except`, failure only logged. -/
  scrollResult : Except String Unit
  /-- `page.content()` (or the extracted frame content): not inside any
  `try`, so a failure propagates. -/
  content : Except String String
  /-- References discovered in the document, resolved one by one. -/
  refs : List String

/-- The outcome skeleton of `WebsiteDownloader.process`: `Except.error`
models an exception escaping to the caller; `Except.ok` carries the
returned boolean.  The only `return` statement in the source is
`return True`. -/
def processModel (st : DState) (o : RenderOracle) : Except String Bool := do
  _ ← o.launch
  -- `try: page.goto(...) except Exception as e: self.log(...)`: absorbed
  let _warned := match o.gotoResult with
                 | Except.ok _ => false
                 | Except.error _ => true
  let st1 := { st with baseUrl := o.finalUrl, network := o.captured }
  -- `_scroll_page` wraps its body in `try/except`: absorbed
  let _scrollFailed := match o.scrollResult with
                       | Except.ok _ => false
                       | Except.error _ => true
  let _html ← o.content
  -- document processing: every resolution is a total state transition,
  -- failed resolutions degrade to unchanged references
  let _st2 := o.refs.foldl (fun s u => (getResource s u none).st) st1
  pure true

/-- `app.process_download`: runs the downloader inside `try/except`,
maps `True` to the `complete` status, a falsy result or any exception
to the `error` status; itself never raises. -/
def processDownloadStatus (st : DState) (o : RenderOracle) : String :=
  match processModel st o with
  | Except.ok b => if b then "complete" else "error"
  | Except.error _ => "error"

/-! ## `WebsiteDownloader.__init__`: output-directory preparation

Paths are component lists; the filesystem is an association list of
paths to node kinds.  `shutil.rmtree` removes a rooted subtree (and
raises on a non-directory); `os.makedirs` creates the directory and its
missing ancestors and raises if the leaf already exists. -/

inductive FType where
  | file : FType
  | dir : FType
deriving Repr, DecidableEq

abbrev Path := List String

abbrev Fs := List (Path × FType)

def fsLookup : Fs → Path → Option FType
  | [], _ => none
  | (q, t) :: rest, p => if q = p then some t else fsLookup rest p

/-- `shutil.rmtree(root)` (on a directory): drop the root and everything
below it. -/
def rmtree (fs : Fs) (root : Path) : Fs :=
  fs.filter (fun e => ! root.isPrefixOf e.1)

/-- The non-empty prefixes of a path, shortest first. -/
def pathPrefixes : Path → List Path
  | [] => []
  | c :: rest => [c] :: (pathPrefixes rest).map (fun q => c :: q)

/-- The walk of `os.makedirs` over the prefixes of the requested path:
an existing directory on the way is fine unless it is the leaf itself
(`FileExistsError`, since `exist_ok` defaults to `False`); an existing
file raises; a missing directory is created. -/
def makedirsGo (p : Path) : Fs → List Path → Except String Fs
  | fs, [] => Except.ok fs
  | fs, q :: qs =>
    match fsLookup fs q with
    | some FType.dir =>
      if q = p then Except.error "FileExistsError" else makedirsGo p fs qs
    | some FType.file => Except.error "NotADirectoryError"
    | none => makedirsGo p ((q, FType.dir) :: fs) qs

/-- `os.makedirs(p)` (with `exist_ok=False`). -/
def makedirs (fs : Fs) (p : Path) : Except String Fs :=
  makedirsGo p fs (pathPrefixes p)

/-- `WebsiteDownloader.__init__(url, output_dir)`: delete the output
directory if it exists, create `output_dir/assets`, start with empty
`resource_cache` and `network_resources`. -/
def initJob (fs : Fs) (outputDir : Path) :
    Except String (Fs × List (String × String) × List (String × NetRes)) :=
  match fsLookup fs outputDir with
  | some FType.file => Except.error "NotADirectoryError"
  | some FType.dir =>
    (makedirs (rmtree fs outputDir) (outputDir ++ ["assets"])).map
      (fun f => (f, [], []))
  | none =>
    (makedirs fs (outputDir ++ ["assets"])).map (fun f => (f, [], []))

/-- Base-1114113 encoding of a character list: an injection of strings
into `Nat` used for the cardinality argument about the filename space
(every character code point is below 1114112). -/
def encodeL : List Char → Nat
  | [] => 0
  | c :: cs => (c.toNat + 1) + 1114113 * encodeL cs

/-! ## Concrete fixtures for the claim witnesses -/

/-- A fallback HTTP client whose every request raises
(times out / transport error). -/
def noFetch : String → Option HttpResp := fun _ => none

def w1State : DState :=
  ⟨"https://ex.com/", [],
   [("https://ex.com/img.png", ⟨[1, 2, 3], "image/png"⟩)], noFetch⟩

def w3State : DState := ⟨"https://ex.com/", [], [], noFetch⟩

def w9State : DState :=
  ⟨"https://ex.com/", [],
   [("https://ex.com/empty.js", ⟨[], "text/javascript"⟩)], noFetch⟩

def c4State : DState :=
  ⟨"https://p.example/page",
   [("https://a.test/img/y.png", "assets/y_49c3b8b8ed8f.png")], [], noFetch⟩

def c6State : DState :=
  ⟨"https://ex.com/", [],
   [("https://ex.com/lazy.jpg", ⟨[7, 7], "image/jpeg"⟩)], noFetch⟩

/-- An `img` whose only lazy-loading attribute is `data-original`,
the second entry of the fixed attribute list. -/
def c6ElemOriginal : Elem := ⟨"img", [("data-original", "https://ex.com/lazy.jpg")]⟩

/-- Captured responses for three distinct URLs, to observe which of
them the media pass actually resolves. -/
def c6StateMulti : DState :=
  ⟨"https://ex.com/", [],
   [("https://ex.com/a.png", ⟨[1], "image/png"⟩),
    ("https://ex.com/b.png", ⟨[2], "image/png"⟩),
    ("https://ex.com/c.png", ⟨[3], "image/png"⟩)], noFetch⟩

/-- An `img` with a plain `src` plus two lazy attributes: `data-src`
(the head of the fixed list) and `data-original` (a later entry). -/
def c6ElemAll : Elem :=
  ⟨"img", [("src", "https://ex.com/a.png"),
           ("data-src", "https://ex.com/b.png"),
           ("data-original", "https://ex.com/c.png")]⟩

/-- An `img` with only a plain `src` and no lazy attribute. -/
def c6ElemSrcOnly : Elem := ⟨"img", [("src", "https://ex.com/a.png")]⟩

def c7State : DState := ⟨"https://ex.com/", [], [], noFetch⟩

/-- An oracle where everything works except obtaining the document
content (the fatal class of §7 of the specification). -/
def c7FatalOracle : RenderOracle :=
  ⟨Except.ok (), Except.ok (), "https://ex.com/", [], Except.ok (),
   Except.error "Page.content: Target closed", []⟩

/-- An oracle where navigation and the scroll probe both fail but the
content is obtained (only non-fatal failures). -/
def c7OkOracle : RenderOracle :=
  ⟨Except.ok (), Except.error "Timeout 120000ms exceeded", "https://ex.com/",
   [], Except.error "Execution context was destroyed",
   Except.ok "<html></html>", ["missing.png"]⟩

/-- Intervening resolutions between the two calls of the C1 witness. -/
def w1Calls : List (String × Option String) := [("style.css", none)]

def w10Fs : Fs :=
  [(["downloads"], FType.dir),
   (["downloads", "job1"], FType.dir),
   (["downloads", "job1", "assets"], FType.dir),
   (["downloads", "job1", "assets", "old_0.png"], FType.file),
   (["downloads", "job1", "index.html"], FType.file),
   (["downloads", "other"], FType.dir)]

end WD

namespace WD

/-! # Theorems -/

/-! ## C5: root-relative anchors -/

/-- C5: for every anchor `href`, a root-relative path (starting with `/`
but not `//`, which includes `/` itself) is rewritten to the same-page
anchor `#`, and any `href` not starting with `/` — in particular an
absolute external URL — is left untouched. -/
theorem c5_root_anchor_rewrite (href : String) :
    (pyStartsWith href "/" = true → pyStartsWith href "//" = false →
      rewriteAnchorHref href = "#")
    ∧ (pyStartsWith href "/" = false → rewriteAnchorHref href = href) := by
  constructor
  · intro h1 h2
    unfold rewriteAnchorHref
    by_cases h : href = "/"
    · simp [h]
    · simp [h, h1, h2]
  · intro h1
    have hne : href ≠ "/" := by
      rintro rfl
      simp [pyStartsWith] at h1
    unfold rewriteAnchorHref
    simp [hne, h1]

/-- C5 witness: `/`, `/about` and an absolute external URL. -/
theorem c5_witness :
    rewriteAnchorHref "/" = "#" ∧ rewriteAnchorHref "/about" = "#" ∧
      rewriteAnchorHref "https://ext.example/p" = "https://ext.example/p" :=
  ⟨(c5_root_anchor_rewrite "/").1 (by decide) (by decide),
   (c5_root_anchor_rewrite "/about").1 (by decide) (by decide),
   (c5_root_anchor_rewrite "https://ext.example/p").2 (by decide)⟩

/-! ## C8: the scroll loop is bounded -/

theorem scrollGo_le (newHeight : Nat → Nat) (viewport : Nat) :
    ∀ (fuel current total iter : Nat), iter ≤ maxScrollIterations →
      scrollGo newHeight viewport fuel current total iter ≤ maxScrollIterations := by
  intro fuel
  induction fuel with
  | zero => intro current total iter h; simpa [scrollGo] using h
  | succ n ih =>
    intro current total iter h
    unfold scrollGo
    split
    · next hc =>
      exact ih _ _ _ (by omega)
    · exact h

/-- C8: the `while` loop of `_scroll_page` executes at most 20
iterations for every height-measurement oracle (in particular for a
page reporting strictly increasing heights), every viewport height and
every initial total height. -/
theorem c8_scroll_bounded (newHeight : Nat → Nat) (viewport total0 : Nat) :
    scrollIterations newHeight viewport total0 ≤ 20 :=
  scrollGo_le newHeight viewport maxScrollIterations 0 total0 0 (by decide)

/-! ## C9: captured responses with empty bodies -/

/-- C9: for a non-trivial reference whose absolute URL is not cached but
has a captured network entry with an empty byte payload, `_get_resource`
returns `None` (not the original reference), attempts no fallback fetch,
saves nothing, and leaves the state — in particular the resource
cache — unchanged. -/
theorem c9_empty_capture (st : DState) (u : String) (b : Option String)
    (ct : String)
    (h0 : isTrivialRef u = false)
    (h1 : assocLookup st.cache (absUrlOf st u b) = none)
    (h2 : assocLookup st.network (absUrlOf st u b) = some ⟨[], ct⟩) :
    getResource st u b = ⟨none, st, 0, 0⟩ := by
  unfold getResource
  rw [h0]
  simp only [Bool.false_eq_true, if_false, h1, h2]
  unfold saveResource
  rw [h1]
  simp

/-- C9 witness: an empty captured `empty.js` body. -/
theorem c9_witness :
    getResource w9State "empty.js" none = ⟨none, w9State, 0, 0⟩ :=
  c9_empty_capture w9State "empty.js" none "text/javascript"
    (by decide) (by decide) (by decide)

/-! ## C3: all three tiers fail -/

/-- C3: for a non-trivial reference whose absolute URL is not in the
cache, not in the captured network map, and whose fallback fetch either
raises (timeout, transport error) or returns a non-200 status,
`_get_resource` returns the original reference string unchanged, with
exactly one fetch attempt, no saved file and an unchanged state (the
embedding is a total function, so no exception propagates). -/
theorem c3_all_tiers_fail (st : DState) (u : String) (b : Option String)
    (h0 : isTrivialRef u = false)
    (h1 : assocLookup st.cache (absUrlOf st u b) = none)
    (h2 : assocLookup st.network (absUrlOf st u b) = none)
    (h3 : isTrivialRef (absUrlOf st u b) = false)
    (hfail : ∀ r, st.fetch (absUrlOf st u b) = some r → r.status ≠ 200) :
    getResource st u b = ⟨some u, st, 1, 0⟩ := by
  unfold getResource
  rw [h0]
  simp only [Bool.false_eq_true, if_false, h1, h2]
  unfold downloadFallback
  rw [h1, h3]
  simp only [Bool.false_eq_true, if_false]
  cases hf : st.fetch (absUrlOf st u b) with
  | none => simp
  | some r =>
    have : r.status ≠ 200 := hfail r hf
    simp [this]

/-- C3 witness: a reference whose fetch raises. -/
theorem c3_witness :
    getResource w3State "missing.png" none = ⟨some "missing.png", w3State, 1, 0⟩ :=
  c3_all_tiers_fail w3State "missing.png" none
    (by decide) (by decide) (by decide) (by decide)
    (fun r hr => by simp [w3State, noFetch] at hr)

/-! ## C6: the lazy-attribute loop -/

/-- C6: in the media pass the first *present* lazy-loading attribute of
the fixed ordered list is preferred (the `break` sits inside the
`if elem.get(attr):` body, so absent names are skipped): an `img` whose
only lazy attribute is `data-original` — the second name of the list —
gets `src` set to the resolved local path and `data-original` removed;
when a plain `src`, `data-src` and `data-original` are all present,
`data-src` wins: `src` is set from its resolution, `data-src` is
removed, the later `data-original` is left untouched, and neither its
URL nor the original `src` URL is resolved (the cache receives exactly
the `data-src` entry, so no later lazy attribute was consulted); with
no lazy attribute present, a non-`data:` `src` is resolved and
rewritten in place. -/
theorem c6_lazy_attr_priority :
    (processMediaElem c6State c6ElemOriginal).2
        = ⟨"img", [("src", "assets/lazy_e3f21e3a4d74.jpg")]⟩
    ∧ (processMediaElem c6State c6ElemOriginal).1.cache
        = [("https://ex.com/lazy.jpg", "assets/lazy_e3f21e3a4d74.jpg")]
    ∧ (processMediaElem c6StateMulti c6ElemAll).2
        = ⟨"img", [("src", "assets/b_8bc2eca855cf.png"),
                   ("data-original", "https://ex.com/c.png")]⟩
    ∧ (processMediaElem c6StateMulti c6ElemAll).1.cache
        = [("https://ex.com/b.png", "assets/b_8bc2eca855cf.png")]
    ∧ (processMediaElem c6StateMulti c6ElemSrcOnly).2
        = ⟨"img", [("src", "assets/a_c98b0c87944d.png")]⟩
    ∧ (processMediaElem c6StateMulti c6ElemSrcOnly).1.cache
        = [("https://ex.com/a.png", "assets/a_c98b0c87944d.png")] := by
  refine ⟨?_, ?_, ?_, ?_, ?_, ?_⟩ <;> set_option maxRecDepth 400000 in decide

/-! ## C7: outcome and error propagation of `process` -/

/-- C7 counterexample: the claim says the fatal failure class changes
the boolean outcome of `process` to failure.  In the code `process` has
a single `return True` statement: on a fatal failure (here:
`page.content()` raising) the call raises instead of returning a
failure boolean, and no outcome whatsoever equals the boolean `False`. -/
theorem c7_counterexample :
    processModel c7State c7FatalOracle ≠ Except.ok false
    ∧ processModel c7State c7FatalOracle
        = Except.error "Page.content: Target closed" := by
  have heq : processModel c7State c7FatalOracle
      = Except.error "Page.content: Target closed" := rfl
  exact ⟨by simp [heq], heq⟩

/-- C7 (amended): `process` returns the boolean `True` whenever it
completes — non-fatal failures (navigation timeout, scroll-probe
errors, resolution failures) are absorbed where they occur — and never
returns a failure boolean; fatal failures propagate as exceptions,
which `process_download` catches and converts to the `error` status;
`process_download` itself always yields a status and never raises. -/
theorem c7_outcome_policy (st : DState) (o : RenderOracle) :
    (o.launch = Except.ok () → (∃ h, o.content = Except.ok h) →
      processModel st o = Except.ok true)
    ∧ processModel st o ≠ Except.ok false
    ∧ (processDownloadStatus st o = "complete" ∨
        processDownloadStatus st o = "error")
    ∧ (∀ e, processModel st o = Except.error e →
        processDownloadStatus st o = "error") := by
  obtain ⟨la, go, fu, cap, sc, co, refs⟩ := o
  cases la with
  | error e =>
    refine ⟨?_, ?_, ?_, ?_⟩ <;>
      simp [processModel, processDownloadStatus, Bind.bind, Except.bind]
  | ok u =>
    cases u
    cases co with
    | error e =>
      refine ⟨?_, ?_, ?_, ?_⟩ <;>
        simp [processModel, processDownloadStatus, Bind.bind, Except.bind]
    | ok h =>
      refine ⟨?_, ?_, ?_, ?_⟩ <;>
        simp [processModel, processDownloadStatus, Bind.bind, Except.bind,
          Pure.pure, Except.pure]

/-- C7 witness: an oracle with a failed navigation and a failed scroll
probe but retrievable content still yields `True` and the `complete`
status. -/
theorem c7_witness :
    c7OkOracle.launch = Except.ok ()
    ∧ (∃ h, c7OkOracle.content = Except.ok h)
    ∧ processModel c7State c7OkOracle = Except.ok true
    ∧ processDownloadStatus c7State c7OkOracle = "complete" :=
  ⟨rfl, ⟨"<html></html>", rfl⟩,
   (c7_outcome_policy c7State c7OkOracle).1 rfl ⟨"<html></html>", rfl⟩,
   by decide⟩

/-! ## C10: job construction -/

theorem fsLookup_cons (q : Path) (t : FType) (rest : Fs) (p : Path) :
    fsLookup ((q, t) :: rest) p = if q = p then some t else fsLookup rest p :=
  rfl

theorem rmtree_lookup_none (fs : Fs) (root p : Path)
    (h : root.isPrefixOf p = true) : fsLookup (rmtree fs root) p = none := by
  induction fs with
  | nil => rfl
  | cons e rest ih =>
    obtain ⟨q, t⟩ := e
    unfold rmtree at ih ⊢
    rw [List.filter_cons]
    cases hk : root.isPrefixOf q with
    | true => simpa [hk] using ih
    | false =>
      have hqp : q ≠ p := by
        rintro rfl
        rw [h] at hk
        exact Bool.noConfusion hk
      simp only [hk, Bool.not_false, if_true]
      rw [fsLookup_cons, if_neg hqp]
      exact ih

theorem rmtree_lookup_eq (fs : Fs) (root p : Path)
    (h : root.isPrefixOf p = false) :
    fsLookup (rmtree fs root) p = fsLookup fs p := by
  induction fs with
  | nil => rfl
  | cons e rest ih =>
    obtain ⟨q, t⟩ := e
    unfold rmtree at ih ⊢
    rw [List.filter_cons]
    cases hk : root.isPrefixOf q with
    | true =>
      have hqp : q ≠ p := by
        rintro rfl
        rw [h] at hk
        exact Bool.noConfusion hk
      simp only [hk, Bool.not_true, Bool.false_eq_true, if_false]
      rw [ih, fsLookup_cons, if_neg hqp]
    | false =>
      simp only [hk, Bool.not_false, if_true]
      rw [fsLookup_cons, fsLookup_cons]
      by_cases hqp : q = p
      · simp [hqp]
      · rw [if_neg hqp, if_neg hqp]
        exact ih

theorem mem_pathPrefixes (xs : Path) :
    ∀ q ∈ pathPrefixes xs, q ≠ [] ∧ q <+: xs := by
  induction xs with
  | nil => intro q hq; simp [pathPrefixes] at hq
  | cons c rest ih =>
    intro q hq
    simp only [pathPrefixes, List.mem_cons, List.mem_map] at hq
    rcases hq with rfl | ⟨q', hq', rfl⟩
    · exact ⟨by simp, ⟨rest, rfl⟩⟩
    · obtain ⟨hne, hpre⟩ := ih q' hq'
      exact ⟨by simp, List.cons_prefix_cons.mpr ⟨rfl, hpre⟩⟩

theorem pathPrefixes_append_last (xs : Path) (a : String) :
    pathPrefixes (xs ++ [a]) = pathPrefixes xs ++ [xs ++ [a]] := by
  induction xs with
  | nil => rfl
  | cons c rest ih =>
    show [c] :: (pathPrefixes (rest ++ [a])).map (fun q => c :: q)
        = ([c] :: (pathPrefixes rest).map (fun q => c :: q)) ++ [c :: (rest ++ [a])]
    rw [ih, List.map_append]
    rfl

theorem makedirsGo_dir (p q : Path) (qs : List Path) (fs : Fs)
    (h : fsLookup fs q = some FType.dir) (hqp : q ≠ p) :
    makedirsGo p fs (q :: qs) = makedirsGo p fs qs := by
  show (match fsLookup fs q with
        | some FType.dir =>
          if q = p then Except.error "FileExistsError" else makedirsGo p fs qs
        | some FType.file => Except.error "NotADirectoryError"
        | none => makedirsGo p ((q, FType.dir) :: fs) qs) = makedirsGo p fs qs
  rw [h]
  simp [hqp]

theorem makedirsGo_new (p q : Path) (qs : List Path) (fs : Fs)
    (h : fsLookup fs q = none) :
    makedirsGo p fs (q :: qs) = makedirsGo p ((q, FType.dir) :: fs) qs := by
  show (match fsLookup fs q with
        | some FType.dir =>
          if q = p then Except.error "FileExistsError" else makedirsGo p fs qs
        | some FType.file => Except.error "NotADirectoryError"
        | none => makedirsGo p ((q, FType.dir) :: fs) qs)
      = makedirsGo p ((q, FType.dir) :: fs) qs
  rw [h]

theorem makedirsGo_skip (p : Path) (qs : List Path) :
    ∀ (fs : Fs) (rest : List Path),
      (∀ q ∈ qs, fsLookup fs q = some FType.dir ∧ q ≠ p) →
      makedirsGo p fs (qs ++ rest) = makedirsGo p fs rest := by
  induction qs with
  | nil => intro fs rest _; rfl
  | cons q qs' ih =>
    intro fs rest h
    obtain ⟨hq, hqp⟩ := h q (by simp)
    rw [List.cons_append, makedirsGo_dir p q (qs' ++ rest) fs hq hqp]
    exact ih fs rest (fun r hr => h r (by simp [hr]))

/-- C10: constructing a job on a filesystem where the output directory
either already exists as a directory (with arbitrary contents) or does
not exist: the construction succeeds, everything that was under the
output directory is gone, the output directory exists and contains
exactly one empty `assets` subdirectory, and the job's resource cache
and captured-network map start empty. -/
theorem c10_init_destructive (fs : Fs) (out : Path)
    (hne : out ≠ [])
    (hanc : ∀ q : Path, q ≠ [] → q ≠ out → q.isPrefixOf out = true →
      fsLookup fs q = some FType.dir)
    (hout : fsLookup fs out = some FType.dir ∨
      (fsLookup fs out = none ∧
        ∀ r, out.isPrefixOf r = true → fsLookup fs r = none)) :
    ∃ fs', initJob fs out = Except.ok (fs', [], [])
      ∧ fsLookup fs' out = some FType.dir
      ∧ fsLookup fs' (out ++ ["assets"]) = some FType.dir
      ∧ ∀ r, out.isPrefixOf r = true → r ≠ out → r ≠ out ++ ["assets"] →
          fsLookup fs' r = none := by
  have houtp : out ≠ out ++ ["assets"] := by
    intro h
    have := congrArg List.length h
    simp at this
  -- the prefix walk of `makedirs (out ++ ["assets"])`
  have hsplit : pathPrefixes (out ++ ["assets"])
      = pathPrefixes out.dropLast ++ ([out] ++ [out ++ ["assets"]]) := by
    rw [pathPrefixes_append_last]
    rw [show pathPrefixes out = pathPrefixes out.dropLast ++ [out] by
      conv_lhs => rw [← List.dropLast_append_getLast hne]
      rw [pathPrefixes_append_last, List.dropLast_append_getLast hne]]
    simp
  -- proper prefixes of `out` are untouched directories in any base
  -- filesystem agreeing with `fs` on them
  have hproper : ∀ q ∈ pathPrefixes out.dropLast,
      q ≠ [] ∧ q <+: out ∧ q ≠ out ∧ q ≠ out ++ ["assets"] ∧
        out.isPrefixOf q = false := by
    intro q hq
    obtain ⟨hqne, hqpre⟩ := mem_pathPrefixes out.dropLast q hq
    have hlen : q.length < out.length := by
      have h1 := hqpre.length_le
      have h2 : out.dropLast.length < out.length := by
        rw [List.length_dropLast]
        have : 0 < out.length := List.length_pos.mpr hne
        omega
      omega
    have hq1 : q <+: out := hqpre.trans (List.dropLast_prefix out)
    refine ⟨hqne, hq1, ?_, ?_, ?_⟩
    · intro h; rw [h] at hlen; omega
    · intro h
      have := congrArg List.length h
      simp at this
      omega
    · cases hb : List.isPrefixOf out q with
      | false => rfl
      | true =>
        have := (List.isPrefixOf_iff_prefix.mp hb).length_le
        omega
  rcases hout with hdir | ⟨hnone, hclean⟩
  · -- output directory exists: it is deleted first
    have hskip : ∀ q ∈ pathPrefixes out.dropLast,
        fsLookup (rmtree fs out) q = some FType.dir ∧ q ≠ out ++ ["assets"] := by
      intro q hq
      obtain ⟨hqne, hqpre, hqout, hqp, hqnotunder⟩ := hproper q hq
      refine ⟨?_, hqp⟩
      rw [rmtree_lookup_eq fs out q hqnotunder]
      exact hanc q hqne hqout (List.isPrefixOf_iff_prefix.mpr hqpre)
    refine ⟨(out ++ ["assets"], FType.dir) :: (out, FType.dir) :: rmtree fs out,
      ?_, ?_, ?_, ?_⟩
    · unfold initJob
      rw [hdir]
      show (makedirs (rmtree fs out) (out ++ ["assets"])).map _ = _
      unfold makedirs
      rw [hsplit, makedirsGo_skip _ _ _ _ hskip, List.singleton_append,
        makedirsGo_new _ _ _ _ (rmtree_lookup_none fs out out
          (List.isPrefixOf_iff_prefix.mpr (List.prefix_refl out))),
        makedirsGo_new _ _ _ _ (by
          rw [fsLookup_cons, if_neg houtp]
          exact rmtree_lookup_none fs out (out ++ ["assets"])
            (List.isPrefixOf_iff_prefix.mpr (List.prefix_append out ["assets"])))]
      rfl
    · rw [fsLookup_cons, if_neg (Ne.symm houtp), fsLookup_cons, if_pos rfl]
    · rw [fsLookup_cons, if_pos rfl]
    · intro r hr hro hra
      rw [fsLookup_cons, if_neg (Ne.symm hra), fsLookup_cons,
        if_neg (Ne.symm hro)]
      exact rmtree_lookup_none fs out r hr
  · -- output directory absent (and nothing beneath it)
    have hskip : ∀ q ∈ pathPrefixes out.dropLast,
        fsLookup fs q = some FType.dir ∧ q ≠ out ++ ["assets"] := by
      intro q hq
      obtain ⟨hqne, hqpre, hqout, hqp, _⟩ := hproper q hq
      exact ⟨hanc q hqne hqout (List.isPrefixOf_iff_prefix.mpr hqpre), hqp⟩
    refine ⟨(out ++ ["assets"], FType.dir) :: (out, FType.dir) :: fs,
      ?_, ?_, ?_, ?_⟩
    · unfold initJob
      rw [hnone]
      show (makedirs fs (out ++ ["assets"])).map _ = _
      unfold makedirs
      rw [hsplit, makedirsGo_skip _ _ _ _ hskip, List.singleton_append,
        makedirsGo_new _ _ _ _ hnone,
        makedirsGo_new _ _ _ _ (by
          rw [fsLookup_cons, if_neg houtp]
          exact hclean (out ++ ["assets"]) (List.isPrefixOf_iff_prefix.mpr
            (List.prefix_append out ["assets"])))]
      rfl
    · rw [fsLookup_cons, if_neg (Ne.symm houtp), fsLookup_cons, if_pos rfl]
    · rw [fsLookup_cons, if_pos rfl]
    · intro r hr hro hra
      rw [fsLookup_cons, if_neg (Ne.symm hra), fsLookup_cons,
        if_neg (Ne.symm hro)]
      exact hclean r hr

/-- C10 witness: a populated previous job directory is wiped: the new
state has the output directory and an empty `assets` directory, and the
stale entries beneath the output directory are gone. -/
theorem c10_witness :
    (∃ fs', initJob w10Fs ["downloads", "job1"] = Except.ok (fs', [], [])
      ∧ fsLookup fs' ["downloads", "job1"] = some FType.dir
      ∧ fsLookup fs' ["downloads", "job1", "assets"] = some FType.dir
      ∧ ∀ r, List.isPrefixOf ["downloads", "job1"] r = true →
          r ≠ ["downloads", "job1"] → r ≠ ["downloads", "job1", "assets"] →
          fsLookup fs' r = none) :=
  c10_init_destructive w10Fs ["downloads", "job1"] (by decide)
    (by
      intro q h1 h2 h3
      have hq : q <+: ["downloads", "job1"] := List.isPrefixOf_iff_prefix.mp h3
      have htake : q = List.take q.length ["downloads", "job1"] :=
        List.prefix_iff_eq_take.mp hq
      have hlen : q.length ≤ 2 := by simpa using hq.length_le
      have h0 : q.length ≠ 0 := by simpa [List.length_eq_zero] using h1
      have hfull : q.length ≠ 2 := by
        intro hl
        rw [hl] at htake
        exact h2 (by rw [htake]; rfl)
      have hone : q.length = 1 := by omega
      rw [hone] at htake
      rw [htake]
      rfl)
    (Or.inl (by decide))

/-! ## C4: stylesheet url() scoping -/

set_option maxRecDepth 400000 in
/-- C4: a `url()` token `../img/y.png` inside a stylesheet fetched from
`https://a.test/css/x.css` is resolved against the sheet's URL —
yielding `https://a.test/img/y.png` — and not against the page URL
(which would yield `https://p.example/img/y.png`): with the job's page
URL set to `https://p.example/page` and the sheet-scoped URL resolved
in the cache, the token is rewritten to the local file; the cache is
consulted (the state is unchanged and the fallback client of the
fixture always fails, so no other tier could have produced the path);
`data:` tokens and empty tokens are left unchanged. -/
theorem c4_css_url_scoping :
    urljoin "https://a.test/css/x.css" "../img/y.png"
        = "https://a.test/img/y.png"
    ∧ urljoin "https://p.example/page" "../img/y.png"
        = "https://p.example/img/y.png"
    ∧ (rewriteCssUrls c4State "x:url(../img/y.png);" "https://a.test/css/x.css").1
        = "x:url(\"y_49c3b8b8ed8f.png\");"
    ∧ ((rewriteCssUrls c4State "x:url(../img/y.png);" "https://a.test/css/x.css").2).cache
        = c4State.cache
    ∧ (rewriteCssUrls c4State "a:url(data:image/png;base64,AA);"
          "https://a.test/css/x.css").1
        = "a:url(data:image/png;base64,AA);"
    ∧ (rewriteCssUrls c4State "b:url();c:url( );" "https://a.test/css/x.css").1
        = "b:url();c:url( );" := by
  refine ⟨?_, ?_, ?_, ?_, ?_, ?_⟩ <;> decide

/-! ## C1: idempotent resolution -/

/-- A saved local path `assets/...` is never the empty string. -/
theorem assets_path_ne_empty (fn : String) : ("assets/" ++ fn) ≠ "" := by
  intro h
  have h2 := congrArg String.data h
  rw [String.data_append] at h2
  simp at h2

/-- `_save_resource` never drops cache entries. -/
theorem saveResource_mono (st : DState) (url : String) (content : List Nat)
    (ct : String) (k v : String)
    (h : assocLookup st.cache k = some v) :
    assocLookup (saveResource st url content ct).2.1.cache k = some v := by
  unfold saveResource
  cases hl : assocLookup st.cache url with
  | some p => simpa using h
  | none =>
    by_cases hc : content = []
    · simpa [hc] using h
    · simp only [hc, if_false]
      unfold assocLookup
      by_cases hk : url = k
      · subst hk
        rw [hl] at h
        exact absurd h (by simp)
      · simpa [hk] using h

/-- `_download_fallback` never drops cache entries. -/
theorem downloadFallback_mono (st : DState) (url : String) (k v : String)
    (h : assocLookup st.cache k = some v) :
    assocLookup (downloadFallback st url).st.cache k = some v := by
  unfold downloadFallback
  cases hl : assocLookup st.cache url with
  | some p => simpa using h
  | none =>
    by_cases ht : isTrivialRef url
    · simpa [ht] using h
    · simp only [ht, Bool.false_eq_true, if_false]
      cases hf : st.fetch url with
      | none => simpa using h
      | some r =>
        by_cases hs : r.status = 200
        · rcases hsv : saveResource st url r.body r.contentType with ⟨r0, st0, sv0⟩
          have := saveResource_mono st url r.body r.contentType k v h
          rw [hsv] at this
          simpa [hs, hsv] using this
        · simpa [hs] using h

/-- `_get_resource` never drops cache entries. -/
theorem getResource_mono (st : DState) (u : String) (b : Option String)
    (k v : String) (h : assocLookup st.cache k = some v) :
    assocLookup (getResource st u b).st.cache k = some v := by
  unfold getResource
  by_cases h0 : isTrivialRef u
  · simpa [h0] using h
  · simp only [h0, Bool.false_eq_true, if_false]
    cases hl : assocLookup st.cache (absUrlOf st u b) with
    | some p => simpa using h
    | none =>
      cases hn : assocLookup st.network (absUrlOf st u b) with
      | some nr =>
        rcases hsv : saveResource st (absUrlOf st u b) nr.body nr.contentType
          with ⟨r0, st0, sv0⟩
        have := saveResource_mono st (absUrlOf st u b) nr.body nr.contentType k v h
        rw [hsv] at this
        simpa [hsv] using this
      | none =>
        have hd := downloadFallback_mono st (absUrlOf st u b) k v h
        cases hr : (downloadFallback st (absUrlOf st u b)).result with
        | some p =>
          by_cases hp : p = ""
          · simpa [hr, hp] using hd
          · simpa [hr, hp] using hd
        | none => simpa [hr] using hd

/-- A sequence of further `_get_resource` calls never drops cache
entries. -/
theorem execCalls_mono (calls : List (String × Option String)) :
    ∀ (st : DState) (k v : String), assocLookup st.cache k = some v →
      assocLookup (execCalls st calls).cache k = some v := by
  induction calls with
  | nil => intro st k v h; simpa [execCalls] using h
  | cons c cs ih =>
    intro st k v h
    have hstep : execCalls st (c :: cs) = execCalls (getResource st c.1 c.2).st cs := by
      simp [execCalls]
    rw [hstep]
    exact ih _ _ _ (getResource_mono st c.1 c.2 k v h)

/-- A `_get_resource` call that saved a file cached the resulting local
path under the resolved absolute URL. -/
theorem getResource_save_caches (st : DState) (u : String) (b : Option String)
    (p : String)
    (hres : (getResource st u b).result = some p)
    (hsave : (getResource st u b).saves = 1) :
    assocLookup (getResource st u b).st.cache (absUrlOf st u b) = some p := by
  unfold getResource at hres hsave ⊢
  by_cases h0 : isTrivialRef u
  · simp [h0] at hsave
  · simp only [h0, Bool.false_eq_true, if_false] at hres hsave ⊢
    cases hl : assocLookup st.cache (absUrlOf st u b) with
    | some q => simp [hl] at hsave
    | none =>
      simp only [hl] at hres hsave ⊢
      cases hn : assocLookup st.network (absUrlOf st u b) with
      | some nr =>
        simp only [hn] at hres hsave ⊢
        unfold saveResource at hres hsave ⊢
        simp only [hl] at hres hsave ⊢
        by_cases hc : nr.body = []
        · simp [hc] at hsave
        · simp only [hc, if_false] at hres hsave ⊢
          unfold assocLookup
          simp at hres
          simp [hres]
      | none =>
        simp only [hn] at hres hsave ⊢
        unfold downloadFallback at hres hsave ⊢
        simp only [hl] at hres hsave ⊢
        by_cases ht : isTrivialRef (absUrlOf st u b)
        · simp [ht, apply_ite] at hsave
        · simp only [ht, Bool.false_eq_true, if_false] at hres hsave ⊢
          cases hf : st.fetch (absUrlOf st u b) with
          | none => simp [hf] at hsave
          | some r =>
            simp only [hf] at hres hsave ⊢
            by_cases hs : r.status = 200
            · simp only [hs, if_true] at hres hsave ⊢
              unfold saveResource at hres hsave ⊢
              simp only [hl] at hres hsave ⊢
              by_cases hc : r.body = []
              · simp [hc] at hsave
              · simp only [hc, if_false] at hres hsave ⊢
                rw [if_pos (assets_path_ne_empty _)] at hres
                rw [if_pos (assets_path_ne_empty _)]
                simp only [Option.some.injEq] at hres
                simp [assocLookup, hres]
            · simp [hs] at hsave

/-- C1: if a `_get_resource` call succeeds by fetching and saving a
resource (one saved file, result `some p`), then the job's cache maps
the resolved absolute URL to `p`, and — after any sequence of further
`_get_resource` calls — every later call that resolves to the same
absolute URL returns that identical path with zero fallback fetches,
zero saved files and an unchanged state. -/
theorem c1_idempotent_resolution (st : DState) (u1 : String)
    (b1 : Option String) (p : String) (calls : List (String × Option String))
    (u2 : String) (b2 : Option String)
    (hres : (getResource st u1 b1).result = some p)
    (hsave : (getResource st u1 b1).saves = 1)
    (h2 : isTrivialRef u2 = false)
    (hsame : absUrlOf (execCalls (getResource st u1 b1).st calls) u2 b2
      = absUrlOf st u1 b1) :
    assocLookup (getResource st u1 b1).st.cache (absUrlOf st u1 b1) = some p
    ∧ getResource (execCalls (getResource st u1 b1).st calls) u2 b2
        = ⟨some p, execCalls (getResource st u1 b1).st calls, 0, 0⟩ := by
  have hstore := getResource_save_caches st u1 b1 p hres hsave
  refine ⟨hstore, ?_⟩
  have hc2 := execCalls_mono calls _ _ _ hstore
  set st2 := execCalls (getResource st u1 b1).st calls with hst2
  unfold getResource
  simp only [h2, Bool.false_eq_true, if_false]
  rw [hsame]
  simp [hc2]

/-! ## C2: the filename policy -/

theorem nameOf_length (u : String) : (nameOf u).length ≤ 30 := by
  unfold nameOf
  split
  · rw [List.length_take]
    exact Nat.min_le_left _ _
  · decide

theorem allowedChar_underscore : allowedChar '_' = true := by decide

theorem nameOf_allowed (u : String) : ∀ c ∈ nameOf u, allowedChar c = true := by
  unfold nameOf
  split
  · intro c hc
    have hc' : c ∈ sanitize ((basenameL (urlparse u).path).takeWhile
        (fun x => x ≠ '.')) := List.take_subset _ _ hc
    unfold sanitize at hc'
    obtain ⟨a, _, rfl⟩ := List.mem_map.mp hc'
    by_cases h : allowedChar a
    · rwa [if_pos h]
    · rw [if_neg h]
      exact allowedChar_underscore
  · intro c hc
    revert c hc
    decide

theorem md5Digest_length (m : List Nat) : (md5Digest m).length = 16 := by
  have h : ∀ p : Nat × Nat × Nat × Nat,
      (match p with
       | (a, b, c, d) => le4 a ++ le4 b ++ le4 c ++ le4 d).length = 16 := by
    rintro ⟨a, b, c, d⟩
    rfl
  exact h _

theorem flatMap_byteHex_length (l : List Nat) :
    (l.flatMap byteHex).length = 2 * l.length := by
  induction l with
  | nil => rfl
  | cons x xs ih =>
    rw [List.flatMap_cons, List.length_append, ih, List.length_cons]
    show 2 + 2 * xs.length = 2 * (xs.length + 1)
    omega

theorem md5hex_data_length (u : String) : (md5hex u).data.length = 32 := by
  show ((md5Digest (utf8Bytes u)).flatMap byteHex).length = 32
  rw [flatMap_byteHex_length, md5Digest_length]

theorem hash12_length (u : String) : (hash12 u).length = 12 := by
  unfold hash12
  rw [List.length_take, md5hex_data_length]
  decide

theorem hexDigit_mem (n : Nat) : hexDigit n ∈ hexDigits := by
  have h : hexDigit n = hexDigit (n % 16) := by
    unfold hexDigit
    have : n % 16 % 16 = n % 16 := by omega
    rw [this]
  rw [h]
  exact List.mem_map.mpr
    ⟨n % 16, List.mem_range.mpr (Nat.mod_lt n (by decide)), rfl⟩

theorem hash12_chars (u : String) : ∀ c ∈ hash12 u, c ∈ hexDigits := by
  intro c hc
  have hc2 : c ∈ (md5Digest (utf8Bytes u)).flatMap byteHex :=
    List.take_subset _ _ hc
  obtain ⟨b, _, hb⟩ := List.mem_flatMap.mp hc2
  unfold byteHex at hb
  simp only [List.mem_cons, List.not_mem_nil, or_false] at hb
  rcases hb with rfl | rfl <;> exact hexDigit_mem _

theorem lastIdx_drop (c : Char) (l : List Char) :
    ∀ i, lastIdx c l = some i → ∃ t, l.drop i = c :: t := by
  induction l with
  | nil => intro i h; exact absurd h (by simp [lastIdx])
  | cons x xs ih =>
    intro i h
    unfold lastIdx at h
    cases ht : lastIdx c xs with
    | some j =>
      rw [ht] at h
      injection h with h
      obtain ⟨t, ht'⟩ := ih j ht
      exact ⟨t, by rw [← h, List.drop_succ_cons]; exact ht'⟩
    | none =>
      rw [ht] at h
      by_cases hx : x = c
      · rw [if_pos hx] at h
        injection h with h
        exact ⟨xs, by rw [← h, List.drop_zero, hx]⟩
      · rw [if_neg hx] at h
        exact absurd h (by simp)

theorem splitext_shape (p : List Char) :
    (splitextL p).2 = [] ∨ ∃ t, (splitextL p).2 = '.' :: t := by
  unfold splitextL
  split
  · left; rfl
  · next d hd =>
    obtain ⟨t, ht⟩ := lastIdx_drop '.' p d hd
    split
    · split
      · right; exact ⟨t, ht⟩
      · left; rfl
    · split
      · right; exact ⟨t, ht⟩
      · left; rfl

theorem lookupTable_mem (t : List (String × String)) (m v : String)
    (h : lookupTable t m = some v) : v ∈ t.map Prod.snd := by
  induction t with
  | nil => exact absurd h (by simp [lookupTable])
  | cons e rest ih =>
    obtain ⟨k, v'⟩ := e
    unfold lookupTable at h
    by_cases hk : k = m
    · rw [if_pos hk] at h
      injection h with h
      simp [← h]
    · rw [if_neg hk] at h
      simp [ih h]

theorem getExtension_shape (u ct : String) :
    (getExtension u ct).data = [] ∨
      ∃ t, (getExtension u ct).data = '.' :: t := by
  unfold getExtension
  by_cases h1 : (splitextL (urlparse u).path).2 ≠ [] ∧
      (splitextL (urlparse u).path).2.length ≤ 6
  · rw [if_pos h1]
    rcases splitext_shape (urlparse u).path with h0 | ⟨t, ht⟩
    · exact absurd h0 h1.1
    · right; exact ⟨t, ht⟩
  · rw [if_neg h1]
    by_cases h2 : ct ≠ ""
    · rw [if_pos h2]
      split
      · next g hg =>
        unfold guessExtension at hg
        have hv := lookupTable_mem mimeTable _ g hg
        have hall : ∀ w ∈ mimeTable.map Prod.snd,
            w.data ≠ [] ∧ w.data.headD ' ' = '.' := by decide
        obtain ⟨hne, hhd⟩ := hall g hv
        cases hgd : g.data with
        | nil => exact absurd hgd hne
        | cons c t =>
          simp only [hgd, List.headD_cons] at hhd
          right
          exact ⟨t, by rw [hhd]⟩
      · left; rfl
    · rw [if_neg h2]
      left; rfl

theorem getExtension_empty_ct_length (u : String) :
    (getExtension u "").length ≤ 6 := by
  unfold getExtension
  by_cases h1 : (splitextL (urlparse u).path).2 ≠ [] ∧
      (splitextL (urlparse u).path).2.length ≤ 6
  · rw [if_pos h1]
    exact h1.2
  · rw [if_neg h1, if_neg (by simp : ¬("" ≠ ""))]
    decide

theorem generateFilename_empty_ct_length (u : String) :
    (generateFilename u "").length ≤ 49 := by
  show (nameOf u ++ '_' :: (hash12 u ++ (getExtension u "").data)).length ≤ 49
  rw [List.length_append, List.length_cons, List.length_append]
  have h1 := nameOf_length u
  have h2 : (hash12 u).length ≤ 12 := le_of_eq (hash12_length u)
  have h3 : (getExtension u "").data.length ≤ 6 := getExtension_empty_ct_length u
  omega

theorem char_toNat_lt (c : Char) : c.toNat < 1114112 := by
  rcases c.valid with h | ⟨h1, h2⟩ <;> simp [Char.toNat] <;> omega

theorem encodeL_lt (l : List Char) : encodeL l < 1114113 ^ l.length := by
  induction l with
  | nil => simp [encodeL]
  | cons c cs ih =>
    have hc : c.toNat < 1114112 := char_toNat_lt c
    unfold encodeL
    rw [List.length_cons, pow_succ]
    calc (c.toNat + 1) + 1114113 * encodeL cs
        < 1114113 * (encodeL cs + 1) := by omega
      _ ≤ 1114113 * 1114113 ^ cs.length := by
          exact Nat.mul_le_mul_left _ (by omega)
      _ = 1114113 ^ cs.length * 1114113 := by ring

theorem encodeL_inj : ∀ l1 l2 : List Char, encodeL l1 = encodeL l2 → l1 = l2 := by
  intro l1
  induction l1 with
  | nil =>
    intro l2 h
    cases l2 with
    | nil => rfl
    | cons c cs => exfalso; unfold encodeL at h; omega
  | cons c cs ih =>
    intro l2 h
    cases l2 with
    | nil => exfalso; unfold encodeL at h; omega
    | cons d ds =>
      unfold encodeL at h
      have hc := char_toNat_lt c
      have hd := char_toNat_lt d
      have h1 : c.toNat = d.toNat ∧ encodeL cs = encodeL ds := by
        constructor <;> omega
      have hcd : c = d := Char.ext (UInt32.ext h1.1)
      rw [hcd, ih ds h1.2]

theorem takeWhile_all_append (p : Char → Bool) (xs : List Char) :
    ∀ (y : Char) (ys : List Char), (∀ x ∈ xs, p x = true) → p y = false →
      (xs ++ y :: ys).takeWhile p = xs := by
  induction xs with
  | nil =>
    intro y ys _ hy
    simp [List.takeWhile_cons, hy]
  | cons x xs' ih =>
    intro y ys hall hy
    rw [List.cons_append, List.takeWhile_cons, if_pos (hall x (by simp))]
    rw [ih y ys (fun r hr => hall r (by simp [hr])) hy]

theorem allowed_ne_dot (x : Char) (h : allowedChar x = true) :
    (x != '.') = true := by
  by_contra hq
  simp at hq
  subst hq
  exact absurd h (by decide)

theorem namePart_no_dot (u : String) :
    ∀ x ∈ nameOf u ++ '_' :: hash12 u, (x != '.') = true := by
  intro x hx
  rcases List.mem_append.mp hx with hx | hx
  · exact allowed_ne_dot x (nameOf_allowed u x hx)
  · rcases List.mem_cons.mp hx with rfl | hx
    · decide
    · have hh := hash12_chars u x hx
      revert hh
      have : ∀ y ∈ hexDigits, (y != '.') = true := by decide
      exact this x

theorem generateFilename_hash_inj (u v ctu ctv : String)
    (h : generateFilename u ctu = generateFilename v ctv) :
    hash12 u = hash12 v := by
  have hl : nameOf u ++ '_' :: (hash12 u ++ (getExtension u ctu).data)
      = nameOf v ++ '_' :: (hash12 v ++ (getExtension v ctv).data) :=
    congrArg String.data h
  have hA : (nameOf u ++ '_' :: hash12 u) ++ (getExtension u ctu).data
      = (nameOf v ++ '_' :: hash12 v) ++ (getExtension v ctv).data := by
    simpa [List.append_assoc] using hl
  have hlen : ('_' :: hash12 u).length = ('_' :: hash12 v).length := by
    simp [hash12_length]
  have peel : (nameOf u ++ '_' :: hash12 u) = (nameOf v ++ '_' :: hash12 v) →
      hash12 u = hash12 v := by
    intro hAB
    have h2 := (List.append_inj' hAB hlen).2
    injection h2
  rcases getExtension_shape u ctu with he1 | ⟨t1, he1⟩ <;>
    rcases getExtension_shape v ctv with he2 | ⟨t2, he2⟩
  · rw [he1, he2, List.append_nil, List.append_nil] at hA
    exact peel hA
  · exfalso
    rw [he1, List.append_nil, he2] at hA
    have hmem : '.' ∈ (nameOf v ++ '_' :: hash12 v) ++ '.' :: t2 := by simp
    rw [← hA] at hmem
    exact absurd (namePart_no_dot u '.' hmem) (by decide)
  · exfalso
    rw [he2, List.append_nil, he1] at hA
    have hmem : '.' ∈ (nameOf u ++ '_' :: hash12 u) ++ '.' :: t1 := by simp
    rw [hA] at hmem
    exact absurd (namePart_no_dot v '.' hmem) (by decide)
  · rw [he1, he2] at hA
    have hTW := congrArg (List.takeWhile (fun x => x != '.')) hA
    rw [takeWhile_all_append _ _ _ _ (namePart_no_dot u) (by decide),
      takeWhile_all_append _ _ _ _ (namePart_no_dot v) (by decide)] at hTW
    exact peel hTW

set_option maxHeartbeats 1000000 in
/-- C2 counterexample: the claim that any two distinct URLs yield
distinct filenames is false in principle: every generated filename has
at most 49 characters (30 for the sanitized name, the separator, the
12-hex-character hash, at most 6 for the extension), so the filename
space is finite while the URL space is not; by the pigeonhole principle
the filename map cannot be injective. -/
theorem c2_counterexample :
    ¬ ∀ (u v ctu ctv : String), u ≠ v →
      generateFilename u ctu ≠ generateFilename v ctv := by
  intro h
  haveI hfin : Finite {s : String // s.length ≤ 49} := by
    refine Finite.of_injective
      (fun s => (⟨encodeL s.1.data, ?_⟩ : Fin (1114113 ^ 49))) ?_
    · calc encodeL s.1.data < 1114113 ^ s.1.data.length := encodeL_lt s.1.data
        _ ≤ 1114113 ^ 49 := Nat.pow_le_pow_right (by decide) s.2
    · rintro ⟨⟨da⟩, ha⟩ ⟨⟨db⟩, hb⟩ hab
      simp only [Fin.mk.injEq] at hab
      exact Subtype.ext (congrArg String.mk (encodeL_inj _ _ hab))
  obtain ⟨x, y, hxy, hf⟩ := Finite.exists_ne_map_eq_of_infinite
    (fun n : ℕ => (⟨generateFilename (String.mk (List.replicate (n + 1) 'a')) "",
      generateFilename_empty_ct_length _⟩ : {s : String // s.length ≤ 49}))
  have hne : String.mk (List.replicate (x + 1) 'a')
      ≠ String.mk (List.replicate (y + 1) 'a') := by
    intro he
    injection he with he'
    have := congrArg List.length he'
    simp only [List.length_replicate] at this
    exact hxy (by omega)
  exact h _ _ "" "" hne (congrArg Subtype.val hf)

/-- C2 (amended): the filename is the sanitized first dot-segment of the
URL's last path segment (at most 30 characters over `[a-zA-Z0-9_-]`,
`resource` for an empty basename), an underscore, the first 12 hex
characters of the MD5 of the full URL, and the extension (URL suffix of
length at most 6, else a content-type lookup); the construction is a
function of the URL and declared content type (same URL and type ⇒ same
filename), and any two URLs whose 12-hex-character hash prefixes differ
receive distinct filenames — but distinct URLs as such are *not*
guaranteed distinct filenames (see the counterexample). -/
theorem c2_filename_policy (u v ctu ctv : String)
    (hne : hash12 u ≠ hash12 v) :
    (generateFilename u ctu).data
        = nameOf u ++ '_' :: (hash12 u ++ (getExtension u ctu).data)
    ∧ (nameOf u).length ≤ 30
    ∧ (∀ c ∈ nameOf u, allowedChar c = true)
    ∧ (hash12 u).length = 12
    ∧ generateFilename u ctu ≠ generateFilename v ctv :=
  ⟨rfl, nameOf_length u, nameOf_allowed u, hash12_length u,
   fun h => hne (generateFilename_hash_inj u v ctu ctv h)⟩

set_option maxRecDepth 400000 in
set_option maxHeartbeats 2000000 in
/-- C2 witness: two same-named resources from different origins get
distinct hash prefixes, hence distinct local filenames. -/
theorem c2_witness :
    hash12 "https://a.test/img/logo.png" ≠ hash12 "https://b.test/img/logo.png"
    ∧ generateFilename "https://a.test/img/logo.png" ""
        ≠ generateFilename "https://b.test/img/logo.png" "" :=
  ⟨by decide,
   (c2_filename_policy "https://a.test/img/logo.png"
      "https://b.test/img/logo.png" "" "" (by decide)).2.2.2.2⟩

set_option maxRecDepth 400000 in
/-- C1 witness: `img.png` is fetched once from the captured network
responses; after an unrelated call, `./img.png` (a different reference
resolving to the same absolute URL) returns the identical path without
fetching or saving. -/
theorem c1_witness :
    (getResource w1State "img.png" none).result
        = some "assets/img_0088b72e3731.png"
    ∧ (getResource w1State "img.png" none).saves = 1
    ∧ getResource (execCalls (getResource w1State "img.png" none).st w1Calls)
          "./img.png" none
        = ⟨some "assets/img_0088b72e3731.png",
           execCalls (getResource w1State "img.png" none).st w1Calls, 0, 0⟩ :=
  ⟨by decide, by decide,
   (c1_idempotent_resolution w1State "img.png" none
      "assets/img_0088b72e3731.png" w1Calls "./img.png" none
      (by decide) (by decide) (by decide) (by decide)).2⟩

end WD
